import Mathlib

/-!
Shallow embedding of the DX11 latency / reaction-time tester repository.

Two programs are modelled:
* `Reaction` — the reaction-time tester (`reaction.cpp`): the test state
  machine, sample recording, running statistics, the per-round random delay
  and the audio beep guard.
* `Latency` — the latency tester (`main.cpp`): the raw-mouse processing
  path with its display filters, the mouse-rate (Hz) tracking window and
  the bounded input log.

Timestamps and durations are exact rationals, measured in milliseconds;
the C++ `float` arithmetic on times is modelled as exact arithmetic.
-/

namespace Reaction

/-- `TestState` from reaction.cpp: `Waiting` (black screen, waiting for
the random delay), `Flashing` (stimulus shown, waiting for click),
`TooEarly` (clicked before the flash, i.e. a false start). -/
inductive TestState
  | Waiting
  | Flashing
  | TooEarly
  deriving DecidableEq, Repr

/-- `MIN_DELAY_MS` — minimum wait before the flash. -/
def MIN_DELAY_MS : ℚ := 1500

/-- `MAX_DELAY_MS` — maximum wait before the flash. -/
def MAX_DELAY_MS : ℚ := 5000

/-- `MAX_LOG_ENTRIES` in reaction.cpp — the cap on retained reaction times. -/
def MAX_LOG_ENTRIES : ℕ := 25

/-- `TONE_DURATION_MS` — beep duration. -/
def TONE_DURATION_MS : ℚ := 80

/-- The measurement-relevant fields of `AppState` in reaction.cpp
(device/window handles are external collaborators and are omitted). -/
structure AppState where
  state : TestState
  roundStartTime : ℚ
  flashStartTime : ℚ
  targetDelayMs : ℚ
  reactionTimes : List ℚ
  lastReactionTime : ℚ
  averageTime : ℚ
  bestTime : ℚ
  audioMode : Bool
  beepPlayed : Bool
  deriving DecidableEq, Repr

/-- The mouse button-down flags `ProcessRawInput` examines
(`RI_MOUSE_LEFT_BUTTON_DOWN`, `RI_MOUSE_RIGHT_BUTTON_DOWN`,
`RI_MOUSE_MIDDLE_BUTTON_DOWN`). -/
structure RawMouse where
  leftDown : Bool
  rightDown : Bool
  middleDown : Bool
  deriving DecidableEq, Repr

/-- The `buttonDown` disjunction computed in `ProcessRawInput`. -/
def buttonDownOf (m : RawMouse) : Bool :=
  m.leftDown || m.rightDown || m.middleDown

/-- `GetRandomDelay`: `std::uniform_real_distribution<float>(MIN, MAX)`
applied to the generator.  The distribution is modelled by its C++
standard contract: it maps a canonical uniform sample `u ∈ [0,1)` to
`a + u * (b - a)`, producing a value in the half-open interval `[a, b)`. -/
def GetRandomDelay (u : ℚ) : ℚ :=
  MIN_DELAY_MS + u * (MAX_DELAY_MS - MIN_DELAY_MS)

/-- `StartNewRound`: reset to `Waiting`, stamp the round start, draw a
fresh random delay (`u` is the canonical sample the distribution
consumes) and clear the beep guard. -/
def StartNewRound (s : AppState) (now u : ℚ) : AppState :=
  { s with
    state := TestState.Waiting
    roundStartTime := now
    targetDelayMs := GetRandomDelay u
    beepPlayed := false }

/-- `UpdateStats`: early-return on an empty sample list, otherwise one
pass accumulating the sum and the minimum (seeded with element 0) and
store mean and best. -/
def UpdateStats (s : AppState) : AppState :=
  if s.reactionTimes = [] then s
  else
    { s with
      averageTime :=
        (s.reactionTimes.foldl (fun a t => a + t) 0) / (s.reactionTimes.length : ℚ)
      bestTime :=
        s.reactionTimes.foldl (fun b t => if t < b then t else b)
          (s.reactionTimes.headD 0) }

/-- The sample insertion in `ProcessRawInput`: `insert` at `begin`
(newest first), then `pop_back` when the size exceeds `MAX_LOG_ENTRIES`. -/
def recordSample (x : ℚ) (l : List ℚ) : List ℚ :=
  if (x :: l).length > MAX_LOG_ENTRIES then (x :: l).dropLast else x :: l

/-- `ProcessRawInput` (mouse branch): ignore anything that is not a
button-down; otherwise dispatch on the current state.  `now` is the
timestamp taken at the top of the handler, `u` the canonical random
sample consumed if a new round is armed. -/
def ProcessRawInput (s : AppState) (m : RawMouse) (now u : ℚ) : AppState :=
  if !(buttonDownOf m) then s
  else
    match s.state with
    | TestState.Waiting => { s with state := TestState.TooEarly }
    | TestState.Flashing =>
        let reactionMs := now - s.flashStartTime
        StartNewRound
          (UpdateStats
            { s with
              lastReactionTime := reactionMs
              reactionTimes := recordSample reactionMs s.reactionTimes })
          now u
    | TestState.TooEarly => StartNewRound s now u

/-- The state-machine head of `Render`: when `Waiting` and the elapsed
time has reached the target delay, switch to `Flashing`, capture the
stimulus-onset timestamp, and (in audio mode, if not yet played this
round) set the guard and invoke `PlayBeepWASAPI`.  The boolean result
records whether the beep was invoked on this call. -/
def Render (s : AppState) (now : ℚ) : AppState × Bool :=
  if s.state = TestState.Waiting then
    if s.targetDelayMs ≤ now - s.roundStartTime then
      if s.audioMode && !s.beepPlayed then
        ({ s with state := TestState.Flashing, flashStartTime := now,
                  beepPlayed := true }, true)
      else
        ({ s with state := TestState.Flashing, flashStartTime := now }, false)
    else (s, false)
  else (s, false)

/-- The result-clearing block shared by the SPACE and F1 key handlers. -/
def clearResults (s : AppState) : AppState :=
  { s with
    reactionTimes := []
    averageTime := 0
    bestTime := 0
    lastReactionTime := 0 }

/-- `WM_KEYDOWN` / `VK_SPACE`: clear results and restart. -/
def KeySpace (s : AppState) (now u : ℚ) : AppState :=
  StartNewRound (clearResults s) now u

/-- `WM_KEYDOWN` / `VK_F1`: toggle audio mode, clear results and restart. -/
def KeyF1 (s : AppState) (now u : ℚ) : AppState :=
  StartNewRound (clearResults { s with audioMode := !s.audioMode }) now u

/-- The events the control loop dispatches to the state machine: a raw
mouse input, a render iteration, or the SPACE / F1 key commands. -/
inductive Ev
  | input (m : RawMouse) (u : ℚ)
  | render
  | space (u : ℚ)
  | f1 (u : ℚ)
  deriving Repr

/-- One control-loop dispatch at time `now`. -/
def step (s : AppState) (e : Ev) (now : ℚ) : AppState :=
  match e with
  | Ev.input m u => ProcessRawInput s m now u
  | Ev.render => (Render s now).1
  | Ev.space u => KeySpace s now u
  | Ev.f1 u => KeyF1 s now u

/-- Run a timed event trace through the state machine. -/
def run (s : AppState) : List (Ev × ℚ) → AppState
  | [] => s
  | et :: tr => run (step s et.1 et.2) tr

/-- A trace is chronological from `t0` when its timestamps are
monotonically non-decreasing starting at `t0` — the single-threaded
control loop reads a monotonic clock. -/
def Chronological : ℚ → List (Ev × ℚ) → Prop
  | _, [] => True
  | t0, et :: tr => t0 ≤ et.2 ∧ Chronological et.2 tr

/-- The default-initialized `AppState` of reaction.cpp (measurement
fields only). -/
def initApp : AppState :=
  { state := TestState.Waiting
    roundStartTime := 0
    flashStartTime := 0
    targetDelayMs := 0
    reactionTimes := []
    lastReactionTime := 0
    averageTime := 0
    bestTime := 0
    audioMode := false
    beepPlayed := false }

/-- Number of `PlayBeepWASAPI` invocations along a trace. -/
def beeps (s : AppState) : List (Ev × ℚ) → ℕ
  | [] => 0
  | et :: tr =>
      (match et.1 with
       | Ev.render => if (Render s et.2).2 then 1 else 0
       | _ => 0) + beeps (step s et.1 et.2) tr

/-- Whether dispatching `e` in state `s` calls `StartNewRound` (a click
while `Flashing` or `TooEarly`, or the SPACE / F1 commands). -/
def IsRoundStart (s : AppState) (e : Ev) : Bool :=
  match e with
  | Ev.input m _ =>
      buttonDownOf m &&
        (decide (s.state = TestState.Flashing) || decide (s.state = TestState.TooEarly))
  | Ev.render => false
  | Ev.space _ => true
  | Ev.f1 _ => true

/-- Number of `StartNewRound` calls along a trace. -/
def roundStarts (s : AppState) : List (Ev × ℚ) → ℕ
  | [] => 0
  | et :: tr =>
      (if IsRoundStart s et.1 then 1 else 0) + roundStarts (step s et.1 et.2) tr

/-- The frame-count computation in `PlayBeepWASAPI`: frames for the fixed
tone duration at the negotiated sample rate, clamped to the negotiated
buffer size (the `(UINT32)` cast of the float product is modelled as the
floor of the exact value). -/
def toneSamples (sampleRate bufferFrames : ℕ) : ℕ :=
  if Nat.floor ((sampleRate : ℚ) * TONE_DURATION_MS / 1000) > bufferFrames
  then bufferFrames
  else Nat.floor ((sampleRate : ℚ) * TONE_DURATION_MS / 1000)

/-- The single-threaded timing invariant: while `Flashing`, the stimulus
onset is no later than the current instant, and every retained sample is
non-negative. -/
def Inv (s : AppState) (t : ℚ) : Prop :=
  (s.state = TestState.Flashing → s.flashStartTime ≤ t) ∧
  ∀ x ∈ s.reactionTimes, 0 ≤ x

/-- An example left-button-down raw mouse event. -/
def mLeft : RawMouse := ⟨true, false, false⟩

/-- An example state in the middle of an `Flashing` (stimulus shown)
round, with two earlier samples. -/
def sFlash : AppState :=
  { state := TestState.Flashing
    roundStartTime := 0
    flashStartTime := 3
    targetDelayMs := 2
    reactionTimes := [7, 9]
    lastReactionTime := 9
    averageTime := 8
    bestTime := 7
    audioMode := false
    beepPlayed := false }

/-- The same example state while still `Waiting`. -/
def sWait : AppState := { sFlash with state := TestState.Waiting }

/-- The same example state after a false start. -/
def sEarly : AppState := { sFlash with state := TestState.TooEarly }

/-- An example audio-mode state at the start of a round. -/
def sAudio : AppState :=
  { initApp with audioMode := true, targetDelayMs := 100 }

/-- An example chronological trace: one render that fires the flash, then
a click. -/
def trc : List (Ev × ℚ) := [(Ev.render, 2000), (Ev.input mLeft (1/2), 2300)]

/-- An example trace of three render iterations with no round restarts. -/
def tr7 : List (Ev × ℚ) := [(Ev.render, 50), (Ev.render, 150), (Ev.render, 200)]

/-- An example sample list filled to the cap. -/
def l25 : List ℚ := List.replicate 25 0

end Reaction

namespace Latency

/-- `MAX_LOG_ENTRIES` in main.cpp — the cap on displayed log entries. -/
def MAX_LOG_ENTRIES : ℕ := 30

/-- The raw mouse event fields main.cpp's `ProcessRawInput` examines:
the individual `usButtonFlags` bits and the motion deltas. -/
structure RawMouseEv where
  leftDown : Bool
  leftUp : Bool
  rightDown : Bool
  rightUp : Bool
  middleDown : Bool
  middleUp : Bool
  b4Down : Bool
  b4Up : Bool
  b5Down : Bool
  b5Up : Bool
  wheel : Bool
  dx : Int
  dy : Int
  deriving DecidableEq, Repr

/-- `isButtonEvent`: `usButtonFlags != 0`. -/
def isButtonEvent (m : RawMouseEv) : Bool :=
  m.leftDown || m.leftUp || m.rightDown || m.rightUp || m.middleDown ||
    m.middleUp || m.b4Down || m.b4Up || m.b5Down || m.b5Up || m.wheel

/-- `isDeltaEvent`: `lLastX != 0 || lLastY != 0`. -/
def isDeltaEvent (m : RawMouseEv) : Bool :=
  !(m.dx == 0) || !(m.dy == 0)

/-- The toggle and tracking fields of main.cpp's `AppState` that the
input path reads and writes. -/
structure AppState where
  enableMouseButtons : Bool
  enableMouseDelta : Bool
  enableUpEvents : Bool
  enableMouseHz : Bool
  enableLog : Bool
  mouseDeltaTimes : List ℚ
  logEntries : List String
  mouseHz : ℕ
  deriving DecidableEq, Repr

/-- The display decision of `ProcessRawInput`'s mouse branch: the filter
early-returns followed by the `usButtonFlags` dispatch chain.  `none`
means the handler returned without calling `TriggerFlash`; `some info`
is the input description passed to `TriggerFlash`. -/
def displayOf (s : AppState) (m : RawMouseEv) : Option String :=
  if isButtonEvent m && !s.enableMouseButtons then none
  else if isDeltaEvent m && !isButtonEvent m && !s.enableMouseDelta then none
  else if m.leftDown then some "Left Click DOWN"
  else if m.leftUp then
    if !s.enableUpEvents then none else some "Left Click UP"
  else if m.rightDown then some "Right Click DOWN"
  else if m.rightUp then
    if !s.enableUpEvents then none else some "Right Click UP"
  else if m.middleDown then some "Middle Click DOWN"
  else if m.middleUp then
    if !s.enableUpEvents then none else some "Middle Click UP"
  else if m.b4Down then some "Button 4 DOWN"
  else if m.b4Up then
    if !s.enableUpEvents then none else some "Button 4 UP"
  else if m.b5Down then some "Button 5 DOWN"
  else if m.b5Up then
    if !s.enableUpEvents then none else some "Button 5 UP"
  else if m.wheel then some "Wheel"
  else if isDeltaEvent m then some "Move"
  else none

/-- The mouse branch of main.cpp's `ProcessRawInput`: first, before any
filter check, a delta event's timestamp is pushed onto `mouseDeltaTimes`
when Hz tracking is enabled; then the filters and the dispatch chain
decide what (if anything) is displayed. -/
def processMouse (s : AppState) (m : RawMouseEv) (now : ℚ) :
    AppState × Option String :=
  if isDeltaEvent m && s.enableMouseHz then
    ({ s with mouseDeltaTimes := s.mouseDeltaTimes ++ [now] },
     displayOf s m)
  else (s, displayOf s m)

/-- The eviction loop in `Render`'s full path: pop entries from the front
while they are older than the cutoff (`now` minus one second). -/
def pruneOld (cutoff : ℚ) : List ℚ → List ℚ
  | [] => []
  | t :: rest => if t < cutoff then pruneOld cutoff rest else t :: rest

/-- The mouse-Hz computation in `Render`'s full path: when enabled, evict
entries older than one second and report the count of survivors. -/
def updateMouseHz (s : AppState) (now : ℚ) : AppState :=
  if s.enableMouseHz then
    { s with
      mouseDeltaTimes := pruneOld (now - 1000) s.mouseDeltaTimes
      mouseHz := (pruneOld (now - 1000) s.mouseDeltaTimes).length }
  else s

/-- The log insertion in `TriggerFlash`: when logging is enabled, insert
the formatted entry at the front and `pop_back` when the size exceeds
`MAX_LOG_ENTRIES`. -/
def insertLogEntry (s : AppState) (entry : String) : AppState :=
  if s.enableLog then
    { s with
      logEntries :=
        if (entry :: s.logEntries).length > MAX_LOG_ENTRIES
        then (entry :: s.logEntries).dropLast
        else entry :: s.logEntries }
  else s

/-- An example latency-tester state: Hz tracking on, move-delta display
filter off, two tracked delta timestamps. -/
def s8 : AppState :=
  { enableMouseButtons := true
    enableMouseDelta := false
    enableUpEvents := true
    enableMouseHz := true
    enableLog := false
    mouseDeltaTimes := [100, 600]
    logEntries := []
    mouseHz := 0 }

/-- An example motion-only raw mouse event (dx = 1, dy = 0, no buttons). -/
def m8 : RawMouseEv :=
  { leftDown := false, leftUp := false, rightDown := false, rightUp := false
    middleDown := false, middleUp := false, b4Down := false, b4Up := false
    b5Down := false, b5Up := false, wheel := false, dx := 1, dy := 0 }

/-- An example latency-tester state with the log filled to the cap. -/
def sLog30 : AppState :=
  { enableMouseButtons := true
    enableMouseDelta := true
    enableUpEvents := true
    enableMouseHz := false
    enableLog := true
    mouseDeltaTimes := []
    logEntries := List.replicate 30 "entry"
    mouseHz := 0 }

end Latency

/-! ### Helper lemmas about the reaction tester -/

namespace Reaction

theorem startNewRound_state (s : AppState) (now u : ℚ) :
    (StartNewRound s now u).state = TestState.Waiting := rfl

theorem startNewRound_reactionTimes (s : AppState) (now u : ℚ) :
    (StartNewRound s now u).reactionTimes = s.reactionTimes := rfl

theorem startNewRound_targetDelayMs (s : AppState) (now u : ℚ) :
    (StartNewRound s now u).targetDelayMs = GetRandomDelay u := rfl

theorem startNewRound_roundStartTime (s : AppState) (now u : ℚ) :
    (StartNewRound s now u).roundStartTime = now := rfl

theorem startNewRound_beepPlayed (s : AppState) (now u : ℚ) :
    (StartNewRound s now u).beepPlayed = false := rfl

theorem startNewRound_flashStartTime (s : AppState) (now u : ℚ) :
    (StartNewRound s now u).flashStartTime = s.flashStartTime := rfl

theorem startNewRound_lastReactionTime (s : AppState) (now u : ℚ) :
    (StartNewRound s now u).lastReactionTime = s.lastReactionTime := rfl

theorem startNewRound_averageTime (s : AppState) (now u : ℚ) :
    (StartNewRound s now u).averageTime = s.averageTime := rfl

theorem startNewRound_bestTime (s : AppState) (now u : ℚ) :
    (StartNewRound s now u).bestTime = s.bestTime := rfl

theorem updateStats_state (s : AppState) : (UpdateStats s).state = s.state := by
  unfold UpdateStats; split <;> rfl

theorem updateStats_reactionTimes (s : AppState) :
    (UpdateStats s).reactionTimes = s.reactionTimes := by
  unfold UpdateStats; split <;> rfl

theorem updateStats_lastReactionTime (s : AppState) :
    (UpdateStats s).lastReactionTime = s.lastReactionTime := by
  unfold UpdateStats; split <;> rfl

theorem updateStats_flashStartTime (s : AppState) :
    (UpdateStats s).flashStartTime = s.flashStartTime := by
  unfold UpdateStats; split <;> rfl

theorem updateStats_beepPlayed (s : AppState) :
    (UpdateStats s).beepPlayed = s.beepPlayed := by
  unfold UpdateStats; split <;> rfl

/-- Reduction of `ProcessRawInput` on a non-qualifying event. -/
theorem processRawInput_noButton (s : AppState) (m : RawMouse) (now u : ℚ)
    (hb : buttonDownOf m = false) : ProcessRawInput s m now u = s := by
  unfold ProcessRawInput
  rw [hb]
  rfl

/-- Reduction of `ProcessRawInput` on a click while `Waiting`. -/
theorem processRawInput_waiting (s : AppState) (m : RawMouse) (now u : ℚ)
    (hb : buttonDownOf m = true) (hs : s.state = TestState.Waiting) :
    ProcessRawInput s m now u = { s with state := TestState.TooEarly } := by
  unfold ProcessRawInput
  rw [hb, hs]
  rfl

/-- Reduction of `ProcessRawInput` on a click while `Flashing`. -/
theorem processRawInput_flashing (s : AppState) (m : RawMouse) (now u : ℚ)
    (hb : buttonDownOf m = true) (hs : s.state = TestState.Flashing) :
    ProcessRawInput s m now u =
      StartNewRound
        (UpdateStats
          { s with
            lastReactionTime := now - s.flashStartTime
            reactionTimes := recordSample (now - s.flashStartTime) s.reactionTimes })
        now u := by
  unfold ProcessRawInput
  rw [hb, hs]
  rfl

/-- Reduction of `ProcessRawInput` on a click while `TooEarly`. -/
theorem processRawInput_tooEarly (s : AppState) (m : RawMouse) (now u : ℚ)
    (hb : buttonDownOf m = true) (hs : s.state = TestState.TooEarly) :
    ProcessRawInput s m now u = StartNewRound s now u := by
  unfold ProcessRawInput
  rw [hb, hs]
  rfl

end Reaction

namespace Reaction

theorem min_seed_le_left (t a : ℚ) : (if t < a then t else a) ≤ a := by
  by_cases h : t < a
  · rw [if_pos h]; exact le_of_lt h
  · rw [if_neg h]

theorem min_seed_le_right (t a : ℚ) : (if t < a then t else a) ≤ t := by
  by_cases h : t < a
  · rw [if_pos h]
  · rw [if_neg h]; exact le_of_not_lt h

/-- The running-minimum fold lands on a member of the seed-plus-list. -/
theorem foldl_min_mem (a : ℚ) (l : List ℚ) :
    l.foldl (fun b t => if t < b then t else b) a ∈ a :: l := by
  induction l generalizing a with
  | nil => exact List.mem_cons_self a []
  | cons t rest ih =>
    simp only [List.foldl_cons]
    rcases List.mem_cons.mp (ih (if t < a then t else a)) with h | h
    · rw [h]
      by_cases hta : t < a
      · rw [if_pos hta]
        exact List.mem_cons.mpr (Or.inr (List.mem_cons_self t rest))
      · rw [if_neg hta]
        exact List.mem_cons_self a (t :: rest)
    · exact List.mem_cons.mpr (Or.inr (List.mem_cons.mpr (Or.inr h)))

/-- The running-minimum fold is a lower bound for the seed and every
element. -/
theorem foldl_min_le (a : ℚ) (l : List ℚ) :
    ∀ x ∈ a :: l, l.foldl (fun b t => if t < b then t else b) a ≤ x := by
  induction l generalizing a with
  | nil =>
    intro x hx
    rcases List.mem_cons.mp hx with h | h
    · rw [h]
      exact le_refl a
    · cases h
  | cons t rest ih =>
    intro x hx
    simp only [List.foldl_cons]
    rcases List.mem_cons.mp hx with h | hx'
    · rw [h]
      exact (ih (if t < a then t else a) _
        (List.mem_cons_self _ rest)).trans (min_seed_le_left t a)
    · rcases List.mem_cons.mp hx' with h | hx2
      · rw [h]
        exact (ih (if t < a then t else a) _
          (List.mem_cons_self _ rest)).trans (min_seed_le_right t a)
      · exact ih (if t < a then t else a) x (List.mem_cons.mpr (Or.inr hx2))

theorem recordSample_ne_nil (x : ℚ) (l : List ℚ) : recordSample x l ≠ [] := by
  unfold recordSample
  split
  · next hc =>
    intro hnil
    have hlen := congrArg List.length hnil
    simp only [List.length_dropLast, List.length_cons, List.length_nil] at hlen
    simp only [MAX_LOG_ENTRIES, List.length_cons] at hc
    omega
  · exact List.cons_ne_nil x l

/-- Every element of the capped insertion result is the new sample or a
previous one. -/
theorem mem_recordSample {y x : ℚ} {l : List ℚ} (hy : y ∈ recordSample x l) :
    y = x ∨ y ∈ l := by
  unfold recordSample at hy
  split at hy
  · exact List.mem_cons.mp (List.dropLast_subset (x :: l) hy)
  · exact List.mem_cons.mp hy

/-- Under the cap, the capped insertion is `take cap (x :: l)`. -/
theorem recordSample_eq_take (x : ℚ) (l : List ℚ) (h : l.length ≤ MAX_LOG_ENTRIES) :
    recordSample x l = (x :: l).take MAX_LOG_ENTRIES := by
  unfold recordSample
  split
  · next hc =>
    rw [List.dropLast_eq_take]
    have hlen : (x :: l).length - 1 = MAX_LOG_ENTRIES := by
      simp only [MAX_LOG_ENTRIES, List.length_cons] at hc h ⊢
      omega
    rw [hlen]
  · next hc =>
    exact (List.take_of_length_le (Nat.le_of_not_lt hc)).symm

theorem recordSample_length_le (x : ℚ) (l : List ℚ) (h : l.length ≤ MAX_LOG_ENTRIES) :
    (recordSample x l).length ≤ MAX_LOG_ENTRIES := by
  unfold recordSample
  split
  · next hc =>
    simp only [List.length_dropLast, List.length_cons]
    simp only [MAX_LOG_ENTRIES] at h ⊢
    omega
  · next hc =>
    simp only [List.length_cons] at hc ⊢
    omega

theorem updateStats_best_mem (s : AppState) (h : s.reactionTimes ≠ []) :
    (UpdateStats s).bestTime ∈ s.reactionTimes := by
  unfold UpdateStats
  rw [if_neg h]
  show s.reactionTimes.foldl (fun b t => if t < b then t else b)
      (s.reactionTimes.headD 0) ∈ s.reactionTimes
  cases hl : s.reactionTimes with
  | nil => exact absurd hl h
  | cons t0 rest =>
    simp only [List.headD_cons, List.foldl_cons, ite_self]
    exact foldl_min_mem t0 rest

theorem updateStats_best_le (s : AppState) :
    ∀ x ∈ s.reactionTimes, (UpdateStats s).bestTime ≤ x := by
  intro x hx
  unfold UpdateStats
  have h : s.reactionTimes ≠ [] := by
    intro hnil
    rw [hnil] at hx
    exact absurd hx (List.not_mem_nil x)
  rw [if_neg h]
  show s.reactionTimes.foldl (fun b t => if t < b then t else b)
      (s.reactionTimes.headD 0) ≤ x
  cases hl : s.reactionTimes with
  | nil => exact absurd hl h
  | cons t0 rest =>
    rw [hl] at hx
    simp only [List.headD_cons, List.foldl_cons, ite_self]
    exact foldl_min_le t0 rest x hx

theorem updateStats_avg (s : AppState) (h : s.reactionTimes ≠ []) :
    (UpdateStats s).averageTime =
      s.reactionTimes.sum / (s.reactionTimes.length : ℚ) := by
  unfold UpdateStats
  rw [if_neg h]
  show s.reactionTimes.foldl (fun a t => a + t) 0 / (s.reactionTimes.length : ℚ)
      = s.reactionTimes.sum / (s.reactionTimes.length : ℚ)
  rw [List.sum_eq_foldl]

end Reaction

/-! ### Claim theorems for the reaction tester -/

namespace Reaction

/-- C10: when the sample list is empty, `UpdateStats` returns early and
changes nothing — in particular `averageTime` and `bestTime` keep their
previous values and no division by the zero count or element access
takes place. -/
theorem update_stats_empty_noop (s : AppState) (h : s.reactionTimes = []) :
    UpdateStats s = s := by
  unfold UpdateStats
  rw [if_pos h]

theorem update_stats_empty_noop_app : UpdateStats initApp = initApp :=
  update_stats_empty_noop initApp rfl

/-- C9: the number of sample frames written for a beep is the frame count
for the fixed 80 ms tone duration at the negotiated sample rate, clamped
so that it never exceeds the negotiated buffer size in frames. -/
theorem tone_frames_clamped (sampleRate bufferFrames : ℕ) :
    toneSamples sampleRate bufferFrames ≤ bufferFrames ∧
    toneSamples sampleRate bufferFrames =
      min (Nat.floor ((sampleRate : ℚ) * TONE_DURATION_MS / 1000)) bufferFrames := by
  unfold toneSamples
  constructor
  · split
    · exact le_refl bufferFrames
    · next hc => exact Nat.le_of_not_lt hc
  · rw [Nat.min_def]
    split
    · next hc => rw [if_neg (by omega)]
    · next hc => rw [if_pos (by omega)]

/-- C6 counterexample: the upper endpoint 5000 ms is not in the support of
the delay distribution.  `std::uniform_real_distribution(a, b)` produces
values in the half-open interval `[a, b)`, so no admissible canonical
sample yields `MAX_DELAY_MS`. -/
theorem delay_max_not_attained :
    ¬ ∃ u : ℚ, 0 ≤ u ∧ u < 1 ∧ GetRandomDelay u = MAX_DELAY_MS := by
  rintro ⟨u, -, h1, he⟩
  unfold GetRandomDelay MIN_DELAY_MS MAX_DELAY_MS at he
  have hu : u = 1 := by linarith
  rw [hu] at h1
  exact absurd h1 (by norm_num)

/-- C6 (amended): the planned delay is redrawn at every round start and is
drawn uniformly over the half-open interval `[1500 ms, 5000 ms)`: every
draw `d` satisfies `1500 ≤ d < 5000`, the lower endpoint is attained at
canonical sample 0, and the upper endpoint is excluded. -/
theorem delay_half_open_range (u : ℚ) (s : AppState) (now : ℚ)
    (h0 : 0 ≤ u) (h1 : u < 1) :
    MIN_DELAY_MS ≤ GetRandomDelay u ∧ GetRandomDelay u < MAX_DELAY_MS ∧
    GetRandomDelay 0 = MIN_DELAY_MS ∧
    (StartNewRound s now u).targetDelayMs = GetRandomDelay u := by
  refine ⟨?_, ?_, ?_, rfl⟩
  · unfold GetRandomDelay MIN_DELAY_MS MAX_DELAY_MS
    nlinarith
  · unfold GetRandomDelay MIN_DELAY_MS MAX_DELAY_MS
    nlinarith
  · unfold GetRandomDelay MIN_DELAY_MS MAX_DELAY_MS
    norm_num

theorem delay_half_open_range_app :
    MIN_DELAY_MS ≤ GetRandomDelay (1/2) ∧ GetRandomDelay (1/2) < MAX_DELAY_MS ∧
    GetRandomDelay 0 = MIN_DELAY_MS ∧
    (StartNewRound initApp 0 (1/2)).targetDelayMs = GetRandomDelay (1/2) :=
  delay_half_open_range (1/2) initApp 0 (by norm_num) (by norm_num)

/-- C1: a qualifying button-down while `Flashing` transitions back to
`Waiting`, records exactly one sample equal to (event time − stimulus
onset time) prepended to the sample sequence (truncated at the cap), and
arms a new round with a freshly drawn random delay. -/
theorem flashing_click_records_sample (s : AppState) (m : RawMouse) (now u : ℚ)
    (hb : buttonDownOf m = true) (hs : s.state = TestState.Flashing)
    (hlen : s.reactionTimes.length ≤ MAX_LOG_ENTRIES) :
    (ProcessRawInput s m now u).state = TestState.Waiting ∧
    (ProcessRawInput s m now u).reactionTimes =
      ((now - s.flashStartTime) :: s.reactionTimes).take MAX_LOG_ENTRIES ∧
    (ProcessRawInput s m now u).lastReactionTime = now - s.flashStartTime ∧
    (ProcessRawInput s m now u).targetDelayMs = GetRandomDelay u ∧
    (ProcessRawInput s m now u).roundStartTime = now ∧
    (ProcessRawInput s m now u).beepPlayed = false := by
  rw [processRawInput_flashing s m now u hb hs]
  refine ⟨startNewRound_state _ _ _, ?_, ?_, startNewRound_targetDelayMs _ _ _,
    startNewRound_roundStartTime _ _ _, startNewRound_beepPlayed _ _ _⟩
  · rw [startNewRound_reactionTimes, updateStats_reactionTimes]
    exact recordSample_eq_take (now - s.flashStartTime) s.reactionTimes hlen
  · rw [startNewRound_lastReactionTime, updateStats_lastReactionTime]

theorem flashing_click_records_sample_app :
    (ProcessRawInput sFlash mLeft 10 0).state = TestState.Waiting :=
  (flashing_click_records_sample sFlash mLeft 10 0 rfl rfl (by decide)).1

/-- C3: a qualifying button-down while `Waiting` transitions to `TooEarly`
(false start) and records nothing; the next qualifying button-down while
`TooEarly` transitions back to `Waiting` and arms a new round, also
recording nothing; neither transition changes the sample sequence or the
running statistics. -/
theorem false_start_no_sample (s : AppState) (m : RawMouse) (now u : ℚ)
    (hb : buttonDownOf m = true) :
    (s.state = TestState.Waiting →
      (ProcessRawInput s m now u).state = TestState.TooEarly ∧
      (ProcessRawInput s m now u).reactionTimes = s.reactionTimes ∧
      (ProcessRawInput s m now u).averageTime = s.averageTime ∧
      (ProcessRawInput s m now u).bestTime = s.bestTime) ∧
    (s.state = TestState.TooEarly →
      (ProcessRawInput s m now u).state = TestState.Waiting ∧
      (ProcessRawInput s m now u).reactionTimes = s.reactionTimes ∧
      (ProcessRawInput s m now u).averageTime = s.averageTime ∧
      (ProcessRawInput s m now u).bestTime = s.bestTime ∧
      (ProcessRawInput s m now u).targetDelayMs = GetRandomDelay u ∧
      (ProcessRawInput s m now u).roundStartTime = now) := by
  constructor
  · intro hs
    rw [processRawInput_waiting s m now u hb hs]
    exact ⟨rfl, rfl, rfl, rfl⟩
  · intro hs
    rw [processRawInput_tooEarly s m now u hb hs]
    exact ⟨startNewRound_state _ _ _, startNewRound_reactionTimes _ _ _,
      startNewRound_averageTime _ _ _, startNewRound_bestTime _ _ _,
      startNewRound_targetDelayMs _ _ _, startNewRound_roundStartTime _ _ _⟩

theorem false_start_no_sample_app :
    (ProcessRawInput sWait mLeft 1 0).state = TestState.TooEarly :=
  ((false_start_no_sample sWait mLeft 1 0 rfl).1 rfl).1

/-- C4: immediately after a recorded trial the running statistics satisfy:
`bestTime` is a retained sample and a lower bound of all retained samples
(i.e. their minimum), `averageTime` is the arithmetic mean of the
retained samples, and the retained samples still number at most the cap. -/
theorem stats_min_mean_after_trial (s : AppState) (m : RawMouse) (now u : ℚ)
    (hb : buttonDownOf m = true) (hs : s.state = TestState.Flashing)
    (hlen : s.reactionTimes.length ≤ MAX_LOG_ENTRIES) :
    (ProcessRawInput s m now u).bestTime ∈ (ProcessRawInput s m now u).reactionTimes ∧
    (∀ x ∈ (ProcessRawInput s m now u).reactionTimes,
      (ProcessRawInput s m now u).bestTime ≤ x) ∧
    (ProcessRawInput s m now u).averageTime =
      (ProcessRawInput s m now u).reactionTimes.sum /
        ((ProcessRawInput s m now u).reactionTimes.length : ℚ) ∧
    (ProcessRawInput s m now u).reactionTimes.length ≤ MAX_LOG_ENTRIES := by
  rw [processRawInput_flashing s m now u hb hs]
  rw [startNewRound_bestTime, startNewRound_reactionTimes, startNewRound_averageTime]
  rw [updateStats_reactionTimes]
  have hne : recordSample (now - s.flashStartTime) s.reactionTimes ≠ [] :=
    recordSample_ne_nil _ _
  refine ⟨?_, ?_, ?_, ?_⟩
  · exact updateStats_best_mem _ hne
  · exact updateStats_best_le _
  · exact updateStats_avg _ hne
  · exact recordSample_length_le _ _ hlen

theorem stats_min_mean_after_trial_app :
    (ProcessRawInput sFlash mLeft 10 0).averageTime =
      (ProcessRawInput sFlash mLeft 10 0).reactionTimes.sum /
        ((ProcessRawInput sFlash mLeft 10 0).reactionTimes.length : ℚ) :=
  (stats_min_mean_after_trial sFlash mLeft 10 0 rfl rfl (by decide)).2.2.1

end Reaction

/-! ### The timing invariant and the per-round beep bound -/

namespace Reaction

theorem inv_of_waiting {s : AppState} {t : ℚ}
    (hw : s.state = TestState.Waiting)
    (hsam : ∀ x ∈ s.reactionTimes, 0 ≤ x) : Inv s t := by
  constructor
  · intro h
    rw [hw] at h
    exact absurd h (by decide)
  · exact hsam

theorem inv_processRawInput {s : AppState} {t t' : ℚ} (m : RawMouse) (u : ℚ)
    (h : Inv s t) (hle : t ≤ t') : Inv (ProcessRawInput s m t' u) t' := by
  obtain ⟨hf, hsam⟩ := h
  by_cases hb : buttonDownOf m = true
  · cases hst : s.state with
    | Waiting =>
      rw [processRawInput_waiting s m t' u hb hst]
      constructor
      · intro hcontra
        exact TestState.noConfusion hcontra
      · exact hsam
    | Flashing =>
      rw [processRawInput_flashing s m t' u hb hst]
      apply inv_of_waiting (startNewRound_state _ _ _)
      rw [startNewRound_reactionTimes, updateStats_reactionTimes]
      intro x hx
      rcases mem_recordSample hx with hx1 | hx2
      · rw [hx1]
        have : s.flashStartTime ≤ t' := le_trans (hf hst) hle
        linarith
      · exact hsam x hx2
    | TooEarly =>
      rw [processRawInput_tooEarly s m t' u hb hst]
      apply inv_of_waiting (startNewRound_state _ _ _)
      rw [startNewRound_reactionTimes]
      exact hsam
  · rw [processRawInput_noButton s m t' u (Bool.not_eq_true _ ▸ Bool.of_not_eq_true hb)]
    exact ⟨fun hh => le_trans (hf hh) hle, hsam⟩

theorem inv_render {s : AppState} {t t' : ℚ}
    (h : Inv s t) (hle : t ≤ t') : Inv (Render s t').1 t' := by
  obtain ⟨hf, hsam⟩ := h
  unfold Render
  by_cases h1 : s.state = TestState.Waiting
  · rw [if_pos h1]
    by_cases h2 : s.targetDelayMs ≤ t' - s.roundStartTime
    · rw [if_pos h2]
      by_cases h3 : (s.audioMode && !s.beepPlayed) = true
      · rw [if_pos h3]
        exact ⟨fun _ => le_refl t', hsam⟩
      · rw [if_neg h3]
        exact ⟨fun _ => le_refl t', hsam⟩
    · rw [if_neg h2]
      exact ⟨fun hh => le_trans (hf hh) hle, hsam⟩
  · rw [if_neg h1]
    exact ⟨fun hh => le_trans (hf hh) hle, hsam⟩

theorem inv_keySpace {s : AppState} {t' : ℚ} (now u : ℚ) :
    Inv (KeySpace s now u) t' := by
  apply inv_of_waiting (startNewRound_state _ _ _)
  rw [startNewRound_reactionTimes]
  intro x hx
  exact absurd hx (List.not_mem_nil x)

theorem inv_keyF1 {s : AppState} {t' : ℚ} (now u : ℚ) :
    Inv (KeyF1 s now u) t' := by
  apply inv_of_waiting (startNewRound_state _ _ _)
  rw [startNewRound_reactionTimes]
  intro x hx
  exact absurd hx (List.not_mem_nil x)

theorem inv_step {s : AppState} {t t' : ℚ} (e : Ev)
    (h : Inv s t) (hle : t ≤ t') : Inv (step s e t') t' := by
  cases e with
  | input m u => exact inv_processRawInput m u h hle
  | render => exact inv_render h hle
  | space u => exact inv_keySpace t' u
  | f1 u => exact inv_keyF1 t' u

theorem run_samples_nonneg {s : AppState} {t : ℚ} (tr : List (Ev × ℚ))
    (h : Inv s t) (hc : Chronological t tr) :
    ∀ x ∈ (run s tr).reactionTimes, 0 ≤ x := by
  induction tr generalizing s t with
  | nil => exact h.2
  | cons et tr ih =>
    obtain ⟨h1, h2⟩ := hc
    exact ih (inv_step et.1 h h1) h2

end Reaction


namespace Reaction

/-- C2: every reaction sample ever appended is non-negative: on the
single-threaded control loop with a monotonic clock, the stimulus-onset
timestamp is captured no later than any button-down event subsequently
processed against it, so along every chronological execution from program
start all retained samples are ≥ 0. -/
theorem recorded_samples_nonneg (t0 u0 : ℚ) (tr : List (Ev × ℚ))
    (hc : Chronological t0 tr) :
    ∀ x ∈ (run (StartNewRound initApp t0 u0) tr).reactionTimes, 0 ≤ x := by
  apply run_samples_nonneg tr _ hc
  apply inv_of_waiting (startNewRound_state _ _ _)
  rw [startNewRound_reactionTimes]
  intro x hx
  exact absurd hx (List.not_mem_nil x)

theorem recorded_samples_nonneg_app : (0 : ℚ) ≤ 300 :=
  recorded_samples_nonneg 0 0 trc (by norm_num [Chronological, trc]) 300
    (by norm_num [trc, run, step, ProcessRawInput, Render, StartNewRound,
      UpdateStats, recordSample, GetRandomDelay, MIN_DELAY_MS, MAX_DELAY_MS,
      MAX_LOG_ENTRIES, buttonDownOf, mLeft, initApp])

/-- Case analysis of the `Render` step: either it fires the beep — which
requires `Waiting`, a reached delay, audio mode and a clear guard, and
sets the guard — or it does not fire and leaves the guard unchanged. -/
theorem render_cases (s : AppState) (t : ℚ) :
    ((Render s t).2 = true ∧ (Render s t).1.beepPlayed = true ∧
     s.state = TestState.Waiting ∧ s.beepPlayed = false) ∨
    ((Render s t).2 = false ∧ (Render s t).1.beepPlayed = s.beepPlayed) := by
  unfold Render
  by_cases h1 : s.state = TestState.Waiting
  · rw [if_pos h1]
    by_cases h2 : s.targetDelayMs ≤ t - s.roundStartTime
    · rw [if_pos h2]
      by_cases h3 : (s.audioMode && !s.beepPlayed) = true
      · rw [if_pos h3]
        left
        refine ⟨rfl, rfl, h1, ?_⟩
        rcases Bool.and_eq_true_iff.mp h3 with ⟨-, hbp⟩
        cases hb : s.beepPlayed
        · rfl
        · rw [hb] at hbp
          exact absurd hbp (by decide)
      · rw [if_neg h3]
        right
        exact ⟨rfl, rfl⟩
    · rw [if_neg h2]
      right
      exact ⟨rfl, rfl⟩
  · rw [if_neg h1]
    right
    exact ⟨rfl, rfl⟩

/-- Along any trace, the number of beep invocations is bounded by the
number of round starts plus one if the guard is currently clear. -/
theorem beeps_le_roundStarts (s : AppState) (tr : List (Ev × ℚ)) :
    beeps s tr ≤ roundStarts s tr + (if s.beepPlayed then 0 else 1) := by
  induction tr generalizing s with
  | nil =>
    simp only [beeps, roundStarts]
    omega
  | cons et tr ih =>
    obtain ⟨e, t⟩ := et
    cases e with
    | render =>
      simp only [beeps, roundStarts, step, IsRoundStart]
      rcases render_cases s t with ⟨h2, hSb, -, hbp⟩ | ⟨h2, hSb⟩
      · have h := ih (Render s t).1
        rw [hSb] at h
        rw [h2, hbp]
        simp at h ⊢
        omega
      · have h := ih (Render s t).1
        rw [hSb] at h
        rw [h2]
        simp at h ⊢
        omega
    | input m u =>
      simp only [beeps, roundStarts, step, IsRoundStart]
      by_cases hb : buttonDownOf m = true
      · have htri : s.state = TestState.Waiting ∨ s.state = TestState.Flashing ∨
            s.state = TestState.TooEarly := by
          cases s.state
          · exact Or.inl rfl
          · exact Or.inr (Or.inl rfl)
          · exact Or.inr (Or.inr rfl)
        rcases htri with hst | hst | hst
        · have hC : (buttonDownOf m &&
              (decide (s.state = TestState.Flashing) ||
               decide (s.state = TestState.TooEarly))) = false := by
            simp [hst]
          have hbp : (ProcessRawInput s m t u).beepPlayed = s.beepPlayed := by
            rw [processRawInput_waiting s m t u hb hst]
          have h := ih (ProcessRawInput s m t u)
          rw [hbp] at h
          simp only [hC]
          simp at h ⊢
          omega
        · have hC : (buttonDownOf m &&
              (decide (s.state = TestState.Flashing) ||
               decide (s.state = TestState.TooEarly))) = true := by
            simp [hst, hb]
          have hbp : (ProcessRawInput s m t u).beepPlayed = false := by
            rw [processRawInput_flashing s m t u hb hst]
            exact startNewRound_beepPlayed _ _ _
          have h := ih (ProcessRawInput s m t u)
          rw [hbp] at h
          simp only [hC]
          simp at h ⊢
          omega
        · have hC : (buttonDownOf m &&
              (decide (s.state = TestState.Flashing) ||
               decide (s.state = TestState.TooEarly))) = true := by
            simp [hst, hb]
          have hbp : (ProcessRawInput s m t u).beepPlayed = false := by
            rw [processRawInput_tooEarly s m t u hb hst]
            exact startNewRound_beepPlayed _ _ _
          have h := ih (ProcessRawInput s m t u)
          rw [hbp] at h
          simp only [hC]
          simp at h ⊢
          omega
      · have hb' : buttonDownOf m = false := by
          cases hbv : buttonDownOf m
          · rfl
          · exact absurd hbv hb
        have hC : (buttonDownOf m &&
            (decide (s.state = TestState.Flashing) ||
             decide (s.state = TestState.TooEarly))) = false := by
          simp [hb']
        have hbp : (ProcessRawInput s m t u).beepPlayed = s.beepPlayed := by
          rw [processRawInput_noButton s m t u hb']
        have h := ih (ProcessRawInput s m t u)
        rw [hbp] at h
        simp only [hC]
        simp at h ⊢
        omega
    | space u =>
      simp only [beeps, roundStarts, step, IsRoundStart]
      have h := ih (KeySpace s t u)
      have hS : (KeySpace s t u).beepPlayed = false := rfl
      rw [hS] at h
      simp at h ⊢
      omega
    | f1 u =>
      simp only [beeps, roundStarts, step, IsRoundStart]
      have h := ih (KeyF1 s t u)
      have hS : (KeyF1 s t u).beepPlayed = false := rfl
      rw [hS] at h
      simp at h ⊢
      omega

/-- C7: in audio mode the tone engine is invoked at most once per round:
along any trace that contains no round start, from a state whose
per-round guard flag is clear (as it is at every round start), the beep
fires at most once across loop iterations. -/
theorem beep_at_most_once_per_round (s : AppState) (tr : List (Ev × ℚ))
    (h0 : roundStarts s tr = 0) (hb : s.beepPlayed = false) :
    beeps s tr ≤ 1 := by
  have h := beeps_le_roundStarts s tr
  rw [h0, hb] at h
  simpa using h

theorem beep_at_most_once_per_round_app : beeps sAudio tr7 ≤ 1 :=
  beep_at_most_once_per_round sAudio tr7
    (by norm_num [tr7, roundStarts, step, IsRoundStart, Render, sAudio, initApp])
    rfl

end Reaction

/-! ### Claim theorems for the latency tester -/

namespace Latency

/-- Under chronological (sorted) timestamps, the front-eviction loop
removes exactly the entries older than the cutoff. -/
theorem pruneOld_eq_filter (c : ℚ) (l : List ℚ)
    (h : l.Pairwise (fun a b => a ≤ b)) :
    pruneOld c l = l.filter (fun t => decide (c ≤ t)) := by
  induction l with
  | nil => rfl
  | cons t rest ih =>
    rcases List.pairwise_cons.mp h with ⟨hall, hrest⟩
    unfold pruneOld
    by_cases hc : t < c
    · rw [if_pos hc, ih hrest, List.filter_cons,
        if_neg (by simp [not_le.mpr hc])]
    · rw [if_neg hc, List.filter_cons, if_pos (by simp [le_of_not_lt hc])]
      rw [List.filter_eq_self.mpr
        (fun a ha => by simp [le_trans (le_of_not_lt hc) (hall a ha)])]

/-- C8: with Hz tracking enabled, every delta event's timestamp is
appended to the rate window before any display-filter check — a
motion-only event suppressed from display by the move-delta filter still
counts — and the rate computation evicts entries older than one second
and reports the count of the surviving entries. -/
theorem rate_counts_all_deltas (s : AppState) (m : RawMouseEv) (now : ℚ)
    (l : List ℚ) (hd : isDeltaEvent m = true) (hz : s.enableMouseHz = true)
    (hsorted : l.Pairwise (fun a b => a ≤ b)) :
    (processMouse s m now).1.mouseDeltaTimes = s.mouseDeltaTimes ++ [now] ∧
    (isButtonEvent m = false → s.enableMouseDelta = false →
      (processMouse s m now).2 = none) ∧
    pruneOld (now - 1000) l = l.filter (fun t => decide (now - 1000 ≤ t)) ∧
    (updateMouseHz { s with mouseDeltaTimes := l } now).mouseHz =
      (l.filter (fun t => decide (now - 1000 ≤ t))).length := by
  refine ⟨?_, ?_, pruneOld_eq_filter _ l hsorted, ?_⟩
  · unfold processMouse
    rw [hd, hz]
    rfl
  · intro hbtn hmv
    unfold processMouse displayOf
    rw [hd, hz, hbtn, hmv]
    simp
  · unfold updateMouseHz
    have hz2 : (AppState.mk s.enableMouseButtons s.enableMouseDelta
        s.enableUpEvents s.enableMouseHz s.enableLog l s.logEntries
        s.mouseHz).enableMouseHz = true := hz
    rw [if_pos hz2]
    show (pruneOld (now - 1000) l).length =
      (l.filter (fun t => decide (now - 1000 ≤ t))).length
    rw [pruneOld_eq_filter _ l hsorted]

theorem rate_counts_all_deltas_app :
    (processMouse s8 m8 1100).1.mouseDeltaTimes = s8.mouseDeltaTimes ++ [1100] ∧
    (processMouse s8 m8 1100).2 = none := by
  have h := rate_counts_all_deltas s8 m8 1100 [100, 600] rfl rfl
    (by norm_num [List.pairwise_cons])
  exact ⟨h.1, h.2.1 rfl rfl⟩

end Latency

/-- C5: both bounded histories never exceed their caps and evict exactly
the oldest entry on overflow while preserving most-recent-first order: a
26th reaction sample (cap 25) or a 31st log entry (cap 30) drops the
single oldest entry and pins the size at the cap. -/
theorem bounded_histories_cap (x : ℚ) (l : List ℚ) (s : Latency.AppState)
    (e : String) (hl : l.length = 25) (hlog : s.logEntries.length = 30)
    (hon : s.enableLog = true) :
    Reaction.recordSample x l = x :: l.dropLast ∧
    (Reaction.recordSample x l).length = 25 ∧
    (Latency.insertLogEntry s e).logEntries = e :: s.logEntries.dropLast ∧
    (Latency.insertLogEntry s e).logEntries.length = 30 ∧
    (∀ l2 : List ℚ, l2.length ≤ 25 →
      (Reaction.recordSample x l2).length ≤ 25) ∧
    (∀ s2 : Latency.AppState, s2.logEntries.length ≤ 30 →
      (Latency.insertLogEntry s2 e).logEntries.length ≤ 30) := by
  have hdropc : ∀ (y : ℚ) (l2 : List ℚ), l2 ≠ [] →
      (y :: l2).dropLast = y :: l2.dropLast := by
    intro y l2 h2
    cases l2 with
    | nil => exact absurd rfl h2
    | cons a rest => rfl
  have hdrops : ∀ (y : String) (l2 : List String), l2 ≠ [] →
      (y :: l2).dropLast = y :: l2.dropLast := by
    intro y l2 h2
    cases l2 with
    | nil => exact absurd rfl h2
    | cons a rest => rfl
  have hlne : l ≠ [] := by
    intro hnil
    rw [hnil] at hl
    exact absurd hl (by decide)
  have hlogne : s.logEntries ≠ [] := by
    intro hnil
    rw [hnil] at hlog
    exact absurd hlog (by decide)
  have h1 : Reaction.recordSample x l = x :: l.dropLast := by
    unfold Reaction.recordSample
    rw [if_pos (by simp [Reaction.MAX_LOG_ENTRIES, hl])]
    exact hdropc x l hlne
  have h3 : (Latency.insertLogEntry s e).logEntries = e :: s.logEntries.dropLast := by
    unfold Latency.insertLogEntry
    rw [if_pos hon]
    show (if (e :: s.logEntries).length > Latency.MAX_LOG_ENTRIES
        then (e :: s.logEntries).dropLast else e :: s.logEntries) = _
    rw [if_pos (by simp [Latency.MAX_LOG_ENTRIES, hlog])]
    exact hdrops e s.logEntries hlogne
  refine ⟨h1, ?_, h3, ?_, ?_, ?_⟩
  · rw [h1]
    simp only [List.length_cons, List.length_dropLast, hl]
  · rw [h3]
    simp only [List.length_cons, List.length_dropLast, hlog]
  · intro l2 h2
    exact Reaction.recordSample_length_le x l2 h2
  · intro s2 h2
    unfold Latency.insertLogEntry
    split
    · next hon2 =>
      show (if (e :: s2.logEntries).length > Latency.MAX_LOG_ENTRIES
          then (e :: s2.logEntries).dropLast else e :: s2.logEntries).length ≤ 30
      split
      · next hc =>
        simp only [List.length_dropLast, List.length_cons]
        omega
      · next hc =>
        simp only [List.length_cons]
        simp only [Latency.MAX_LOG_ENTRIES, List.length_cons] at hc
        omega
    · exact h2

theorem bounded_histories_cap_app :
    (Reaction.recordSample 7 Reaction.l25).length = 25 ∧
    (Latency.insertLogEntry Latency.sLog30 "x").logEntries.length = 30 := by
  have h := bounded_histories_cap 7 Reaction.l25 Latency.sLog30 "x"
    (by simp [Reaction.l25]) (by simp [Latency.sLog30]) rfl
  exact ⟨h.2.1, h.2.2.2.1⟩
